import Mathlib

/-!
Shallow embedding of the computational core of
`pkg/ui/src/views/reports/containers/network/index.tsx` (the Network
Diagnostics report): identity resolution, filter parsing, node
classification, latency statistics, pairwise classification,
missing-connection detection and the sort chains.

Modelling conventions:
* JavaScript numbers are exact rationals (`ℚ`); the only places where
  IEEE-754 special values matter are `d3.mean`/`d3.deviation` returning
  `undefined` on too-small inputs and the resulting `NaN` thresholds, which
  are modelled by `Option ℚ` (`none` = undefined/NaN) with the JS rule that
  any comparison against `NaN` is false.
* `Math.sqrt` (inside `d3.deviation`) is an uninterpreted parameter
  `sqrt : ℚ → ℚ`; no claim depends on its value, only on definedness.
* A thrown `TypeError` (member access on `undefined`) is modelled by an
  `Option`-valued result being `none`.
* JS objects keyed by node id are association lists `List (Nat × _)`;
  `Map.set` overwrites, hence lookups search the reversed list (last write
  wins).
-/

namespace NetworkReport

/-- Liveness states from the admin UI `LivenessStatus` enum. Only
`HEALTHY` and `SUSPECT` are meaningful to this report. -/
inductive LivenessStatus where
  | UNKNOWN
  | DEAD
  | UNAVAILABLE
  | HEALTHY
  | SUSPECT
  | DECOMMISSIONING
  | DECOMMISSIONED
deriving DecidableEq, Repr

/-- One raw node status record. The TS code reads `status.desc.node_id`,
`status.desc.address.address_field`, `status.desc.locality` (a list of
(key,value) tiers), `status.updated_at` and `status.latencies` (a map from
peer node id to a nanosecond duration); those fields are inlined here. -/
structure NodeStatus where
  node_id : Nat
  address : String
  locality : List (String × String)
  updated_at : Nat
  latencies : List (Nat × Int)
deriving DecidableEq, Repr

/-- Normalized identity record (interface `Identity` in the source). -/
structure Identity where
  nodeID : Nat
  address : String
  locality : String
  updatedAt : Nat
deriving DecidableEq, Repr

/-- Interface `NoConnection` in the source. -/
structure NoConnection where
  «from» : Identity
  «to» : Identity
deriving DecidableEq, Repr

/-- The part of `nodesSummary` the report reads: the node id list, the
liveness map (total function: a node id absent from the JS map compares
unequal to both `HEALTHY` and `SUSPECT`, which any non-HEALTHY,
non-SUSPECT value represents) and the raw status records. -/
structure Snapshot where
  nodeIDs : List Nat
  liveness : Nat → LivenessStatus
  nodeStatuses : List NodeStatus

/-- Deviation bands produced by `getLatencyCell` (the `heat` string plus
the two special cells). -/
inductive Band where
  | self
  | noConnection
  | plus2
  | plus1
  | minus2
  | minus1
  | even
deriving DecidableEq, Repr

/-- Source `localityToString`: join the tiers as `key=value` with commas,
preserving tier order. -/
def localityToString (locality : List (String × String)) : String :=
  ",".intercalate (locality.map (fun tier => tier.1 ++ "=" ++ tier.2))

/-- Building one `Identity` from a status record, as the
`identityByID.set` call does. -/
def identityOf (st : NodeStatus) : Identity :=
  { nodeID := st.node_id
    address := st.address
    locality := localityToString st.locality
    updatedAt := st.updated_at }

/-- The `identityByID` map: successive `Map.set` calls, so the last
status with a given id wins; lookup therefore searches the reversed
status list. -/
def identityByID (sts : List NodeStatus) (i : Nat) : Option Identity :=
  (sts.reverse.find? (fun st => st.node_id == i)).map identityOf

/-- The `nodesSummary.nodeStatusByID` keyed map (same last-write-wins
keying as `identityByID`). -/
def nodeStatusByID (snap : Snapshot) (i : Nat) : Option NodeStatus :=
  snap.nodeStatuses.reverse.find? (fun st => st.node_id == i)

/-! ### Filter parsing (`getNodeIDs` and the locality `RegExp`) -/

/-- Longest digit prefix of a character list. -/
def takeDigits : List Char → List Char
  | [] => []
  | c :: cs => if c.isDigit then c :: takeDigits cs else []

/-- Digits to their decimal value. -/
def digitsToNat (l : List Char) : Nat :=
  l.foldl (fun n c => n * 10 + (c.toNat - 48)) 0

/-- JavaScript `parseInt(s, 10)`: skip leading whitespace, optional sign,
then read the longest digit prefix; `NaN` (here `none`) when that prefix
is empty. Trailing garbage after the digits is ignored. -/
def parseIntJS (s : String) : Option Int :=
  let cs := s.data.dropWhile Char.isWhitespace
  match cs with
  | '-' :: rest =>
      if (takeDigits rest).isEmpty then none
      else some (-(digitsToNat (takeDigits rest) : Int))
  | '+' :: rest =>
      if (takeDigits rest).isEmpty then none
      else some ((digitsToNat (takeDigits rest) : Int))
  | _ =>
      if (takeDigits cs).isEmpty then none
      else some ((digitsToNat (takeDigits cs) : Int))

/-- Accumulator-style splitting of a character list at commas (JS
`_.split(input, ",")`). -/
def splitCommaAux : List Char → List Char → List String
  | [], cur => [String.mk cur.reverse]
  | c :: cs, cur =>
    if c = ',' then String.mk cur.reverse :: splitCommaAux cs []
    else splitCommaAux cs (c :: cur)

/-- JS `_.split(input, ",")`. -/
def splitComma (s : String) : List String := splitCommaAux s.data []

/-- One step of the `forEach` in `getNodeIDs`: `parseInt` the token, add
it only when truthy (so `NaN` and `0` are both dropped). -/
def getNodeIDsStep (ids : Finset Int) (tok : String) : Finset Int :=
  match parseIntJS tok with
  | some n => if n = 0 then ids else insert n ids
  | none => ids

/-- Source `getNodeIDs`: nothing for the empty input, else fold the
token list into a set of node ids. -/
def getNodeIDs (input : String) : Finset Int :=
  if input = "" then ∅ else (splitComma input).foldl getNodeIDsStep ∅

/-- The locality-filter construction in `render`: an empty query string
leaves the filter absent; otherwise `new RegExp(...)` either yields a
matcher or throws, and the `catch` turns the throw into an absent filter.
The regular-expression engine itself is the uninterpreted parameter
`compile` (a compiled pattern is just its `test` function). -/
def parseLocality (compile : String → Option (String → Bool))
    (q : String) : Option (String → Bool) :=
  if q = "" then none else compile q

/-! ### Stable sorting (lodash `sortBy`) -/

/-- Stable insertion of `x` into `l` by `le` on the key: `x` goes before
the first element whose key is `≥` its own, hence after nothing equal
that was originally earlier. -/
def insertK (key : α → K) (le : K → K → Bool) (x : α) : List α → List α
  | [] => [x]
  | y :: ys => if le (key x) (key y) then x :: y :: ys else y :: insertK key le x ys

/-- Lodash `_.sortBy(l, key)`: a stable ascending sort by `le` on the
key. Lodash's sort is stable; stable sorts with the same comparator
agree on every input, so stable insertion sort is a faithful model. -/
def sortBy (key : α → K) (le : K → K → Bool) : List α → List α
  | [] => []
  | x :: xs => insertK key le x (sortBy key le xs)

/-- Boolean `≤` on `Nat` keys. -/
def natLe (a b : Nat) : Bool := decide (a ≤ b)

/-- Boolean `≤` on `String` keys, as lexicographic order on the
character lists (JS compares strings by code units; the exact collation
does not matter to any claim, only that it is a total order). -/
def strLe (a b : String) : Bool := !decide (b.data < a.data)

/-! ### Node classification (healthy / stale sets with filters) -/

/-- The unfiltered healthy chain: node ids whose liveness is `HEALTHY`. -/
def healthyBase (snap : Snapshot) : List Nat :=
  snap.nodeIDs.filter (fun i => snap.liveness i == LivenessStatus.HEALTHY)

/-- The unfiltered stale chain: node ids whose liveness is `SUSPECT`. -/
def staleBase (snap : Snapshot) : List Nat :=
  snap.nodeIDs.filter (fun i => snap.liveness i == LivenessStatus.SUSPECT)

/-- The `requestedIDs.size > 0` guard plus the `requestedIDs.has` filter. -/
def applyRequested (requested : Finset Int) (l : List Nat) : List Nat :=
  if 0 < requested.card then
    l.filter (fun i => decide ((i : Int) ∈ requested))
  else l

/-- Filter with a fallible predicate; `none` anywhere models the thrown
`TypeError` aborting the whole computation. -/
def filterOpt (p : α → Option Bool) : List α → Option (List α)
  | [] => some []
  | x :: xs =>
    match p x, filterOpt p xs with
    | some b, some r => some (if b then x :: r else r)
    | _, _ => none

/-- The locality-exclusion filter: for each id the code reads
`nodeStatusByID[nodeID].desc.locality` (a throw when the status is
missing) and keeps the id only when the pattern does NOT match. Guarded
by `!_.isNil(locality)`. -/
def applyLocality (snap : Snapshot) (loc : Option (String → Bool))
    (l : List Nat) : Option (List Nat) :=
  match loc with
  | none => some l
  | some test =>
      filterOpt
        (fun i =>
          (nodeStatusByID snap i).map
            (fun st => !test (localityToString st.locality)))
        l

/-- The full `healthyIDsContext` chain value. -/
def healthyIDs (snap : Snapshot) (requested : Finset Int)
    (loc : Option (String → Bool)) : Option (List Nat) :=
  applyLocality snap loc (applyRequested requested (healthyBase snap))

/-- The full `staleIDsContext` chain value. -/
def staleIDs (snap : Snapshot) (requested : Finset Int)
    (loc : Option (String → Bool)) : Option (List Nat) :=
  applyLocality snap loc (applyRequested requested (staleBase snap))

/-- Lodash `_.union`: concatenation de-duplicated keeping first
occurrences. -/
def unionList (a b : List Nat) : List Nat :=
  (a ++ b).foldl (fun acc x => if x ∈ acc then acc else acc ++ [x]) []

/-- Map with a fallible function (`none` = a thrown `TypeError`). -/
def mapOpt (f : α → Option β) : List α → Option (List β)
  | [] => some []
  | x :: xs =>
    match f x, mapOpt f xs with
    | some y, some ys => some (y :: ys)
    | _, _ => none

/-- `displayIdentities`: union of the two filtered chains, resolved to
identities, sorted by nodeID then by locality (each pass stable, the
later pass primary). A missing identity makes the `sortBy` key accessor
throw, modelled by `none`. -/
def displayIdentities (snap : Snapshot) (requested : Finset Int)
    (loc : Option (String → Bool)) : Option (List Identity) :=
  match healthyIDs snap requested loc, staleIDs snap requested loc with
  | some h, some s =>
    (mapOpt (identityByID snap.nodeStatuses) (unionList h s)).map
      (fun idents =>
        sortBy (fun ident => ident.locality) strLe
          (sortBy (fun ident => ident.nodeID) natLe idents))
  | _, _ => none

/-- `staleIdentities`: the stale chain resolved to identities, same sort
chain. -/
def staleIdentities (snap : Snapshot) (requested : Finset Int)
    (loc : Option (String → Bool)) : Option (List Identity) :=
  match staleIDs snap requested loc with
  | some s =>
    (mapOpt (identityByID snap.nodeStatuses) s).map
      (fun idents =>
        sortBy (fun ident => ident.locality) strLe
          (sortBy (fun ident => ident.nodeID) natLe idents))
  | none => none

/-! ### Latency statistics (`latencies`, d3 mean / deviation, thresholds) -/

/-- Source `NanoToMilli` (`src/util/convert`): nanoseconds to
milliseconds. `latency.toNumber()` on a protobuf Long always yields a
finite float, so in the exact model the `_.isFinite` test is identically
true; overflow to `Infinity` is not modelled. -/
def NanoToMilli (nanos : Int) : ℚ := (nanos : ℚ) / 1000000

/-- The inner chain of the `latencies` computation for one healthy node
`a`: `_.without(healthyIDs, a)` keeps every other healthy id, then for
each such `b` the code reads `nodeStatusByID[a].latencies[b]` and calls
`.toNumber()` on it — a throw (`none`) when the status or the entry is
missing — then filters to finite, strictly positive milliseconds. -/
def perNodeSample (snap : Snapshot) (healthyList : List Nat)
    (nodeIDa : Nat) : Option (List ℚ) :=
  match nodeStatusByID snap nodeIDa with
  | none => none
  | some st =>
    (mapOpt (fun b => st.latencies.lookup b)
        (healthyList.filter (fun b => b ≠ nodeIDa))).map
      (fun ds => (ds.map NanoToMilli).filter (fun ms => decide (0 < ms)))

/-- The full `latencies` sample list (`_.flatMap` over healthy nodes). -/
def latencySample (snap : Snapshot) (healthyList : List Nat) :
    Option (List ℚ) :=
  (mapOpt (perNodeSample snap healthyList) healthyList).map List.flatten

/-- `d3.mean`: `undefined` on the empty list, else the arithmetic mean. -/
def d3Mean (l : List ℚ) : Option ℚ :=
  if l.isEmpty then none else some (l.sum / l.length)

/-- The sample variance under `d3.deviation`: `undefined` for fewer than
two values, else sum of squared deviations over `n - 1`. -/
def d3Variance (l : List ℚ) : Option ℚ :=
  if l.length < 2 then none
  else
    some (((l.map (fun x => (x - l.sum / l.length) ^ 2)).sum) /
      ((l.length : ℚ) - 1))

/-- `d3.deviation` = `Math.sqrt` of the sample variance; `sqrt` is the
uninterpreted square root of floating arithmetic. -/
def d3Deviation (sqrt : ℚ → ℚ) (l : List ℚ) : Option ℚ :=
  (d3Variance l).map sqrt

/-- JS `+` where either operand may be `undefined`/`NaN`: the result is a
number only when both are. -/
def jsAdd : Option ℚ → Option ℚ → Option ℚ
  | some x, some y => some (x + y)
  | _, _ => none

/-- JS `-` with the same `NaN` propagation. -/
def jsSub : Option ℚ → Option ℚ → Option ℚ
  | some x, some y => some (x - y)
  | _, _ => none

/-- JS `q > t` where `t` may be `NaN`: every comparison against `NaN` is
false. -/
def jsGtB (q : ℚ) : Option ℚ → Bool
  | some t => decide (t < q)
  | none => false

/-- JS `q < t` with the same `NaN` rule. -/
def jsLtB (q : ℚ) : Option ℚ → Bool
  | some t => decide (q < t)
  | none => false

/-- `const stddevPlus1 = mean + stddev`. -/
def stddevPlus1 (mean stddev : Option ℚ) : Option ℚ := jsAdd mean stddev

/-- `const stddevPlus2 = stddevPlus1 + stddev`. -/
def stddevPlus2 (mean stddev : Option ℚ) : Option ℚ :=
  jsAdd (stddevPlus1 mean stddev) stddev

/-- `const stddevMinus1 = mean - stddev`. -/
def stddevMinus1 (mean stddev : Option ℚ) : Option ℚ := jsSub mean stddev

/-- `const stddevMinus2 = stddevMinus1 - stddev`. -/
def stddevMinus2 (mean stddev : Option ℚ) : Option ℚ :=
  jsSub (stddevMinus1 mean stddev) stddev

/-! ### Pairwise classification (`getLatencyCell`) -/

/-- The `heat` if-chain of `getLatencyCell` on a millisecond value. -/
def classifyMs (p2 p1 m2 m1 : Option ℚ) (latency : ℚ) : Band :=
  if jsGtB latency p2 then Band.plus2
  else if jsGtB latency p1 then Band.plus1
  else if jsLtB latency m2 then Band.minus2
  else if jsLtB latency m1 then Band.minus1
  else Band.even

/-- Source `getLatencyCell`, reduced to the band it renders: self check
first, then the stale check, then `nodeStatusByID[nodeIDa].latencies`
(a throw — `none` — when the status is missing), then the `_.isNil`
missing-entry check, then the threshold chain. -/
def getLatencyCell (snap : Snapshot) (staleList : List Nat)
    (p2 p1 m2 m1 : Option ℚ) (nodeIDa nodeIDb : Nat) : Option Band :=
  if nodeIDa = nodeIDb then some Band.self
  else if nodeIDa ∈ staleList ∨ nodeIDb ∈ staleList then
    some Band.noConnection
  else
    match nodeStatusByID snap nodeIDa with
    | none => none
    | some st =>
      match st.latencies.lookup nodeIDb with
      | none => some Band.noConnection
      | some v => some (classifyMs p2 p1 m2 m1 (NanoToMilli v))

/-! ### Missing-connection detection (`noConnections`) -/

/-- The inner chain of `noConnections` for one healthy node `a`: the keys
of `a`'s latency map, minus the healthy ids (`_.difference`), resolved to
identity pairs (`identityByID.get`; a missing identity makes the first
`sortBy` key accessor throw, hence `none`), then the four stable sorts
applied in source order: `to.nodeID`, `to.locality`, `from.nodeID`,
`from.locality`. -/
def noConnGroup (snap : Snapshot) (healthyList : List Nat)
    (nodeIDa : Nat) : Option (List NoConnection) :=
  match nodeStatusByID snap nodeIDa with
  | none => none
  | some st =>
    (mapOpt
        (fun b =>
          match identityByID snap.nodeStatuses nodeIDa,
              identityByID snap.nodeStatuses b with
          | some f, some t => some (NoConnection.mk f t)
          | _, _ => none)
        ((st.latencies.map Prod.fst).filter
          (fun b => !healthyList.contains b))).map
      (fun entries =>
        sortBy (fun nc => nc.from.locality) strLe
          (sortBy (fun nc => nc.from.nodeID) natLe
            (sortBy (fun nc => nc.to.locality) strLe
              (sortBy (fun nc => nc.to.nodeID) natLe entries))))

/-- The full `noConnections` list: `_.flatMap` of the per-node groups —
note the sort chain lives inside the flatMap, i.e. it is applied per
group, not to the concatenated list. -/
def noConnections (snap : Snapshot) (healthyList : List Nat) :
    Option (List NoConnection) :=
  (mapOpt (noConnGroup snap healthyList) healthyList).map List.flatten

/-- Modelled from the spec (§4.7), for comparison with the code: the same
four stable sorts applied to the WHOLE no-connection list, which is what
the claim says the output is ordered by. -/
def globalNoConnSort (l : List NoConnection) : List NoConnection :=
  sortBy (fun nc => nc.from.locality) strLe
    (sortBy (fun nc => nc.from.nodeID) natLe
      (sortBy (fun nc => nc.to.locality) strLe
        (sortBy (fun nc => nc.to.nodeID) natLe l)))

/-- Modelled from the claim (C9), for comparison with the code: node `a`
has a latency-map key `B` that is not healthy. -/
def peerReported (snap : Snapshot) (healthyList : List Nat)
    (a B : Nat) : Bool :=
  match nodeStatusByID snap a with
  | some st =>
      (st.latencies.map Prod.fst).contains B && !healthyList.contains B
  | none => false

/-- Modelled from the claim (C9), for comparison with the code: node `A`
reports a missing connection toward `B` exactly when `A` is healthy, `A`'s
latency map has a key `B`, and `B` is not healthy. -/
def missingConnSpec (snap : Snapshot) (healthyList : List Nat)
    (A B : Nat) : Bool :=
  healthyList.contains A && peerReported snap healthyList A B

/-! ### Concrete snapshots used as test inputs -/

/-- Two healthy nodes that report a 0ns latency to each other: every
pairwise entry exists, but the sample filter drops the non-positive
values, so the sample list is empty while cells still have values. -/
def snapC1 : Snapshot :=
  ⟨[1, 2],
   fun i => if i = 1 ∨ i = 2 then LivenessStatus.HEALTHY
            else LivenessStatus.DEAD,
   [⟨1, "a1", [], 0, [(2, 0)]⟩, ⟨2, "a2", [], 0, [(1, 0)]⟩]⟩

/-- Two healthy nodes with empty latency maps: the statistics chain reads
`latencies[b]` (undefined) and calls `.toNumber()` on it. -/
def snapC2 : Snapshot :=
  ⟨[1, 2],
   fun i => if i = 1 ∨ i = 2 then LivenessStatus.HEALTHY
            else LivenessStatus.DEAD,
   [⟨1, "a1", [], 0, []⟩, ⟨2, "a2", [], 0, []⟩]⟩

/-- One healthy node whose latency map names peer 3, for which no status
record (hence no identity) exists. -/
def snapC2b : Snapshot :=
  ⟨[1],
   fun i => if i = 1 then LivenessStatus.HEALTHY else LivenessStatus.DEAD,
   [⟨1, "a1", [], 0, [(3, 5)]⟩]⟩

/-- Healthy nodes 2 and 1 (in that snapshot order) each reporting a
latency entry toward dead node 3: both emit a no-connection row. -/
def snapC3 : Snapshot :=
  ⟨[2, 1, 3],
   fun i => if i = 1 ∨ i = 2 then LivenessStatus.HEALTHY
            else LivenessStatus.DEAD,
   [⟨1, "a1", [], 0, [(3, 1000000)]⟩,
    ⟨2, "a2", [], 0, [(3, 1000000)]⟩,
    ⟨3, "a3", [], 0, []⟩]⟩

/-- The no-connection list the code produces on `snapC3`. -/
def listC3 : List NoConnection :=
  [⟨⟨2, "a2", "", 0⟩, ⟨3, "a3", "", 0⟩⟩,
   ⟨⟨1, "a1", "", 0⟩, ⟨3, "a3", "", 0⟩⟩]

/-! ### Claim theorems -/

/-- C1, counterexample. On `snapC1` the sample list is empty, so mean and
deviation are undefined and every threshold is `NaN`; yet the cell
(1,2), which has a (zero) latency value, is classified into the
`stddev-even` band — a band computed from all-false `NaN` comparisons,
not a defined empty/placeholder state. -/
theorem emptySample_yields_even_band_cex :
    healthyBase snapC1 = [1, 2] ∧
    latencySample snapC1 (healthyBase snapC1) = some [] ∧
    d3Mean [] = none ∧
    d3Deviation (fun q => q) [] = none ∧
    getLatencyCell snapC1 []
      (stddevPlus2 (d3Mean []) (d3Deviation (fun q => q) []))
      (stddevPlus1 (d3Mean []) (d3Deviation (fun q => q) []))
      (stddevMinus2 (d3Mean []) (d3Deviation (fun q => q) []))
      (stddevMinus1 (d3Mean []) (d3Deviation (fun q => q) []))
      1 2 = some Band.even ∧
    Band.even ≠ Band.self ∧ Band.even ≠ Band.noConnection := by
  refine ⟨rfl, ?_, rfl, rfl, rfl, by decide, by decide⟩
  show latencySample snapC1 [1, 2] = some []
  simp [latencySample, perNodeSample, mapOpt, nodeStatusByID, snapC1,
    NanoToMilli]

/-- C1, amended: when the sample list is empty, `d3.mean` and
`d3.deviation` are explicitly undefined and all four thresholds are
`NaN`; every comparison against `NaN` is false, so a pair that does have
a latency entry is classified `stddev-even` (not an explicit
placeholder), while the self and no-connection cases are unaffected. -/
theorem emptySample_nan_thresholds_classify_even (sqrt : ℚ → ℚ)
    (snap : Snapshot) (staleList : List Nat) (a b : Nat) (st : NodeStatus)
    (v : Int) :
    d3Mean [] = none ∧
    d3Deviation sqrt [] = none ∧
    stddevPlus2 (d3Mean []) (d3Deviation sqrt []) = none ∧
    stddevPlus1 (d3Mean []) (d3Deviation sqrt []) = none ∧
    stddevMinus2 (d3Mean []) (d3Deviation sqrt []) = none ∧
    stddevMinus1 (d3Mean []) (d3Deviation sqrt []) = none ∧
    (a ≠ b → ¬(a ∈ staleList ∨ b ∈ staleList) →
      nodeStatusByID snap a = some st → st.latencies.lookup b = some v →
      getLatencyCell snap staleList
        (stddevPlus2 (d3Mean []) (d3Deviation sqrt []))
        (stddevPlus1 (d3Mean []) (d3Deviation sqrt []))
        (stddevMinus2 (d3Mean []) (d3Deviation sqrt []))
        (stddevMinus1 (d3Mean []) (d3Deviation sqrt []))
        a b = some Band.even) := by
  refine ⟨rfl, rfl, rfl, rfl, rfl, rfl, ?_⟩
  intro hab hst hsome hlook
  simp only [getLatencyCell, if_neg hab, if_neg hst, hsome, hlook]
  rfl

/-- C1, witness for the amended theorem at a concrete input. -/
theorem emptySample_nan_thresholds_classify_even_witness :
    getLatencyCell snapC1 []
      (stddevPlus2 (d3Mean []) (d3Deviation (fun q => q + 1) []))
      (stddevPlus1 (d3Mean []) (d3Deviation (fun q => q + 1) []))
      (stddevMinus2 (d3Mean []) (d3Deviation (fun q => q + 1) []))
      (stddevMinus1 (d3Mean []) (d3Deviation (fun q => q + 1) []))
      2 1 = some Band.even :=
  (emptySample_nan_thresholds_classify_even (fun q => q + 1) snapC1 [] 2 1
      ⟨2, "a2", [], 0, [(1, 0)]⟩ 0).2.2.2.2.2.2
    (by decide) (by decide) (by decide) (by decide)

/-- C2, code bug. The spec says no condition in this core is fatal and
that the statistics chain converts a duration only when `a`'s latency map
has an entry for `b`; the code instead calls `.toNumber()` on the
possibly-undefined `latencies[b]` (and, in the no-connection chain, reads
`.nodeID` of a possibly-undefined identity), both throws — modelled as
the computation evaluating to `none` instead of a smaller list. -/
theorem missing_latency_entry_evaluates_to_exception :
    healthyBase snapC2 = [1, 2] ∧
    latencySample snapC2 (healthyBase snapC2) = none ∧
    healthyBase snapC2b = [1] ∧
    noConnections snapC2b (healthyBase snapC2b) = none := by
  decide

/-- C3, counterexample. On `snapC3` the code emits the group of healthy
node 2 before the group of healthy node 1 (snapshot order), with all
`from` localities equal; a list produced by the claimed whole-list sort
chain would put from-node 1 first, so the output is not globally ordered
by from.locality then from.nodeID then to.locality then to.nodeID. -/
theorem noConnections_not_globally_sorted_cex :
    noConnections snapC3 (healthyBase snapC3) = some listC3 ∧
    listC3.map (fun nc => nc.from.locality) = ["", ""] ∧
    listC3.map (fun nc => nc.from.nodeID) = [2, 1] ∧
    globalNoConnSort listC3 ≠ listC3 :=
  ⟨rfl, rfl, rfl, by decide⟩

/-- C5, counterexample. Node 1 is stale, yet the pair (1,1) classifies as
`self`, not `no-connection`: the self check precedes the stale check. -/
theorem stale_self_classifies_self_cex :
    (1 : Nat) ∈ [1] ∧
    getLatencyCell snapC2 [1] none none none none 1 1 = some Band.self ∧
    Band.self ≠ Band.noConnection := by
  decide

/-- C5, amended: for every stale node `b` and every node `a` DIFFERENT
from `b`, the pair (a,b) classifies as `no-connection`, regardless of
snapshot contents and thresholds (hence regardless of whether a latency
value exists). -/
theorem stale_peer_noConnection_of_ne (snap : Snapshot)
    (staleList : List Nat) (p2 p1 m2 m1 : Option ℚ) (a b : Nat)
    (hb : b ∈ staleList) (hab : a ≠ b) :
    getLatencyCell snap staleList p2 p1 m2 m1 a b =
      some Band.noConnection := by
  simp only [getLatencyCell, if_neg hab, if_pos (Or.inr hb)]

/-- C5, witness for the amended theorem at a concrete input. -/
theorem stale_peer_noConnection_of_ne_witness :
    getLatencyCell snapC2 [2] none none none none 1 2 =
      some Band.noConnection :=
  stale_peer_noConnection_of_ne snapC2 [2] none none none none 1 2
    (by decide) (by decide)

/-- C4. The pairwise classifier decides in first-match-wins order: self
when the two ids are equal; `no-connection` when either id is stale;
`no-connection` when `a`'s latency map has no entry for `b`; otherwise
the millisecond value goes through the threshold chain, whose five
outcomes are mutually exclusive because each band's condition includes
the negation of every earlier check (wider bands first), and which never
returns `self` or `no-connection`. -/
theorem getLatencyCell_decision_order (snap : Snapshot)
    (staleList : List Nat) (p2 p1 m2 m1 : Option ℚ) (a b : Nat) :
    (getLatencyCell snap staleList p2 p1 m2 m1 a a = some Band.self) ∧
    (a ≠ b → a ∈ staleList ∨ b ∈ staleList →
      getLatencyCell snap staleList p2 p1 m2 m1 a b =
        some Band.noConnection) ∧
    (∀ st, a ≠ b → ¬(a ∈ staleList ∨ b ∈ staleList) →
      nodeStatusByID snap a = some st → st.latencies.lookup b = none →
      getLatencyCell snap staleList p2 p1 m2 m1 a b =
        some Band.noConnection) ∧
    (∀ st v, a ≠ b → ¬(a ∈ staleList ∨ b ∈ staleList) →
      nodeStatusByID snap a = some st → st.latencies.lookup b = some v →
      getLatencyCell snap staleList p2 p1 m2 m1 a b =
        some (classifyMs p2 p1 m2 m1 (NanoToMilli v))) ∧
    (∀ q : ℚ,
      (classifyMs p2 p1 m2 m1 q = Band.plus2 ↔ jsGtB q p2 = true) ∧
      (classifyMs p2 p1 m2 m1 q = Band.plus1 ↔
        jsGtB q p2 = false ∧ jsGtB q p1 = true) ∧
      (classifyMs p2 p1 m2 m1 q = Band.minus2 ↔
        jsGtB q p2 = false ∧ jsGtB q p1 = false ∧ jsLtB q m2 = true) ∧
      (classifyMs p2 p1 m2 m1 q = Band.minus1 ↔
        jsGtB q p2 = false ∧ jsGtB q p1 = false ∧ jsLtB q m2 = false ∧
          jsLtB q m1 = true) ∧
      (classifyMs p2 p1 m2 m1 q = Band.even ↔
        jsGtB q p2 = false ∧ jsGtB q p1 = false ∧ jsLtB q m2 = false ∧
          jsLtB q m1 = false) ∧
      classifyMs p2 p1 m2 m1 q ≠ Band.self ∧
      classifyMs p2 p1 m2 m1 q ≠ Band.noConnection) := by
  refine ⟨?_, ?_, ?_, ?_, ?_⟩
  · simp [getLatencyCell]
  · intro hab hst
    simp only [getLatencyCell, if_neg hab, if_pos hst]
  · intro st hab hst hsome hlook
    simp only [getLatencyCell, if_neg hab, if_neg hst, hsome, hlook]
  · intro st v hab hst hsome hlook
    simp only [getLatencyCell, if_neg hab, if_neg hst, hsome, hlook]
  · intro q
    unfold classifyMs
    cases h2 : jsGtB q p2 <;> cases h1 : jsGtB q p1 <;>
      cases hm2 : jsLtB q m2 <;> cases hm1 : jsLtB q m1 <;>
      simp

/-- C4, witness at concrete inputs for each hypothesis-bearing branch. -/
theorem getLatencyCell_decision_order_witness :
    getLatencyCell snapC1 [] none none none none 3 3 = some Band.self ∧
    getLatencyCell snapC1 [] none none none none 1 2 =
      some (classifyMs none none none none (NanoToMilli 0)) ∧
    ((classifyMs (some 0) (some 0) (some 0) (some 0) 1 = Band.plus2) ↔
      (jsGtB (1 : ℚ) (some 0) = true)) :=
  ⟨(getLatencyCell_decision_order snapC1 [] none none none none 3 3).1,
   (getLatencyCell_decision_order snapC1 [] none none none none 1 2).2.2.2.1
     ⟨1, "a1", [], 0, [(2, 0)]⟩ 0 (by decide) (by decide) (by decide)
     (by decide),
   ((getLatencyCell_decision_order snapC1 [] (some 0) (some 0) (some 0)
       (some 0) 1 2).2.2.2.2 1).1⟩

/-- Membership after folding the token list of `getNodeIDs`: an id is
collected iff it was already there or some token parses to it and it is
nonzero. -/
theorem mem_foldl_getNodeIDsStep (toks : List String) :
    ∀ (acc : Finset Int) (n : Int),
      n ∈ toks.foldl getNodeIDsStep acc ↔
        n ∈ acc ∨ ∃ tok, tok ∈ toks ∧ parseIntJS tok = some n ∧ n ≠ 0 := by
  induction toks with
  | nil => intro acc n; simp
  | cons t ts ih =>
    intro acc n
    simp only [List.foldl_cons, ih, List.mem_cons]
    have hP : (∃ tok, (tok = t ∨ tok ∈ ts) ∧
          (parseIntJS tok = some n ∧ n ≠ 0)) ↔
        ((parseIntJS t = some n ∧ n ≠ 0) ∨
          ∃ tok, tok ∈ ts ∧ (parseIntJS tok = some n ∧ n ≠ 0)) := by
      constructor
      · rintro ⟨tok, htok | htok, hp⟩
        · exact Or.inl (htok ▸ hp)
        · exact Or.inr ⟨tok, htok, hp⟩
      · rintro (hp | ⟨tok, htok, hp⟩)
        · exact ⟨t, Or.inl rfl, hp⟩
        · exact ⟨tok, Or.inr htok, hp⟩
    rw [hP]
    cases h : parseIntJS t with
    | none => simp [getNodeIDsStep, h]
    | some m =>
      by_cases hm : m = 0
      · subst hm
        simp only [getNodeIDsStep, h, if_pos rfl, Option.some.injEq]
        constructor
        · exact fun hc => hc.elim (fun ha => Or.inl ha)
            (fun hb => Or.inr (Or.inr hb))
        · rintro (ha | ⟨h0, hn0⟩ | hb)
          · exact Or.inl ha
          · exact absurd h0.symm hn0
          · exact Or.inr hb
      · simp only [getNodeIDsStep, h, if_neg hm, Finset.mem_insert,
          Option.some.injEq]
        by_cases hn : n = m
        · subst hn
          constructor
          · intro _; exact Or.inr (Or.inl ⟨rfl, hm⟩)
          · intro _; exact Or.inl (Or.inl rfl)
        · constructor
          · rintro ((h1 | h1) | h1)
            · exact absurd h1 hn
            · exact Or.inl h1
            · exact Or.inr (Or.inr h1)
          · rintro (h1 | ⟨h1, _⟩ | h1)
            · exact Or.inl (Or.inr h1)
            · exact absurd h1.symm hn
            · exact Or.inr h1

/-- Elements of a successful `mapOpt` all arise from elements of the
input. -/
theorem mapOpt_some_mem {α β : Type} (f : α → Option β) :
    ∀ (l : List α) (r : List β), mapOpt f l = some r →
      ∀ y, y ∈ r → ∃ a, a ∈ l ∧ f a = some y := by
  intro l
  induction l with
  | nil =>
    intro r hr y hy
    unfold mapOpt at hr
    injection hr with hr
    subst hr
    exact absurd hy (List.not_mem_nil y)
  | cons a as ih =>
    intro r hr y hy
    unfold mapOpt at hr
    cases hfa : f a with
    | none => rw [hfa] at hr; exact absurd hr (by simp)
    | some b =>
      rw [hfa] at hr
      cases hrec : mapOpt f as with
      | none => rw [hrec] at hr; exact absurd hr (by simp)
      | some rest =>
        rw [hrec] at hr
        injection hr with hr
        subst hr
        rcases List.mem_cons.1 hy with rfl | hy'
        · exact ⟨a, List.mem_cons_self a as, hfa⟩
        · rcases ih rest hrec y hy' with ⟨x, hx, hfx⟩
          exact ⟨x, List.mem_cons_of_mem a hx, hfx⟩

/-- Membership characterization of a successful `filterOpt`. -/
theorem filterOpt_some_mem {α : Type} (p : α → Option Bool) :
    ∀ (l r : List α), filterOpt p l = some r →
      ∀ x, x ∈ r ↔ x ∈ l ∧ p x = some true := by
  intro l
  induction l with
  | nil =>
    intro r hr x
    unfold filterOpt at hr
    injection hr with hr
    subst hr
    simp
  | cons a as ih =>
    intro r hr x
    unfold filterOpt at hr
    cases hpa : p a with
    | none => rw [hpa] at hr; exact absurd hr (by simp)
    | some b =>
      rw [hpa] at hr
      cases hrec : filterOpt p as with
      | none => rw [hrec] at hr; exact absurd hr (by simp)
      | some rest =>
        rw [hrec] at hr
        injection hr with hr
        subst hr
        cases b with
        | true =>
          rw [if_pos rfl]
          rw [List.mem_cons, List.mem_cons, ih rest hrec x]
          constructor
          · rintro (rfl | ⟨hx, hp⟩)
            · exact ⟨Or.inl rfl, hpa⟩
            · exact ⟨Or.inr hx, hp⟩
          · rintro ⟨rfl | hx, hp⟩
            · exact Or.inl rfl
            · exact Or.inr ⟨hx, hp⟩
        | false =>
          rw [if_neg (by simp)]
          rw [ih rest hrec x, List.mem_cons]
          constructor
          · rintro ⟨hx, hp⟩
            exact ⟨Or.inr hx, hp⟩
          · rintro ⟨rfl | hx, hp⟩
            · rw [hpa] at hp
              exact absurd hp (by simp)
            · exact ⟨hx, hp⟩

/-- `insertK` permutes consing. -/
theorem insertK_perm {α K : Type} (key : α → K) (le : K → K → Bool)
    (x : α) : ∀ l : List α, (insertK key le x l).Perm (x :: l) := by
  intro l
  induction l with
  | nil => exact List.Perm.refl _
  | cons y ys ih =>
    unfold insertK
    by_cases h : le (key x) (key y) = true
    · rw [if_pos h]
    · rw [if_neg h]
      exact ((ih.cons y).trans (List.Perm.swap x y ys))

/-- `sortBy` permutes its input. -/
theorem sortBy_perm {α K : Type} (key : α → K) (le : K → K → Bool) :
    ∀ l : List α, (sortBy key le l).Perm l := by
  intro l
  induction l with
  | nil => exact List.Perm.refl _
  | cons x xs ih =>
    exact (insertK_perm key le x (sortBy key le xs)).trans (ih.cons x)

/-- Membership is invariant under `sortBy`. -/
theorem mem_sortBy {α K : Type} (key : α → K) (le : K → K → Bool)
    (l : List α) (x : α) : x ∈ sortBy key le l ↔ x ∈ l :=
  (sortBy_perm key le l).mem_iff

/-- Sorting a list whose keys are all equal returns it unchanged (the
stable no-op pass). -/
theorem sortBy_const_key {α K : Type} (key : α → K) (le : K → K → Bool)
    (c : K) (hrefl : le c c = true) :
    ∀ l : List α, (∀ x ∈ l, key x = c) → sortBy key le l = l := by
  intro l
  induction l with
  | nil => intro _; rfl
  | cons x xs ih =>
    intro h
    have hx : key x = c := h x (List.mem_cons_self x xs)
    have hxs : sortBy key le xs = xs :=
      ih (fun y hy => h y (List.mem_cons_of_mem x hy))
    show insertK key le x (sortBy key le xs) = x :: xs
    rw [hxs]
    cases xs with
    | nil => rfl
    | cons y ys =>
      have hy : key y = c := h y (by simp)
      unfold insertK
      rw [hx, hy, if_pos hrefl]

/-- Elements of `insertK` are the inserted element or old elements. -/
theorem mem_insertK {α K : Type} (key : α → K) (le : K → K → Bool)
    (x : α) (l : List α) (z : α) :
    z ∈ insertK key le x l ↔ z = x ∨ z ∈ l := by
  rw [(insertK_perm key le x l).mem_iff, List.mem_cons]

/-- `insertK` preserves sortedness for a total, transitive boolean
relation on keys. -/
theorem insertK_sorted {α K : Type} (key : α → K) (le : K → K → Bool)
    (htot : ∀ a b, le a b = true ∨ le b a = true)
    (htrans : ∀ a b c, le a b = true → le b c = true → le a c = true)
    (x : α) :
    ∀ l : List α,
      List.Pairwise (fun u v => le (key u) (key v) = true) l →
      List.Pairwise (fun u v => le (key u) (key v) = true)
        (insertK key le x l) := by
  intro l
  induction l with
  | nil => intro _; exact List.pairwise_singleton _ x
  | cons y ys ih =>
    intro hl
    unfold insertK
    by_cases h : le (key x) (key y) = true
    · rw [if_pos h]
      refine List.Pairwise.cons ?_ hl
      intro z hz
      rcases List.mem_cons.1 hz with rfl | hz'
      · exact h
      · exact htrans _ _ _ h (List.rel_of_pairwise_cons hl hz')
    · rw [if_neg h]
      have hyx : le (key y) (key x) = true :=
        (htot (key x) (key y)).resolve_left h
      refine List.Pairwise.cons ?_ (ih (List.Pairwise.of_cons hl))
      intro z hz
      rcases (mem_insertK key le x ys z).1 hz with rfl | hz'
      · exact hyx
      · exact List.rel_of_pairwise_cons hl hz'

/-- `sortBy` sorts, for a total transitive boolean key order. -/
theorem sortBy_sorted {α K : Type} (key : α → K) (le : K → K → Bool)
    (htot : ∀ a b, le a b = true ∨ le b a = true)
    (htrans : ∀ a b c, le a b = true → le b c = true → le a c = true) :
    ∀ l : List α,
      List.Pairwise (fun u v => le (key u) (key v) = true)
        (sortBy key le l) := by
  intro l
  induction l with
  | nil => exact List.Pairwise.nil
  | cons x xs ih => exact insertK_sorted key le htot htrans x _ ih

/-- Stability of `insertK` seen through a fixed-key filter. -/
theorem filter_insertK {α K : Type} [BEq K] [LawfulBEq K] (key : α → K)
    (le : K → K → Bool) (c : K) (hrefl : le c c = true) (x : α) :
    ∀ l : List α,
      (insertK key le x l).filter (fun z => key z == c) =
        if key x == c then x :: l.filter (fun z => key z == c)
        else l.filter (fun z => key z == c) := by
  intro l
  induction l with
  | nil =>
    show [x].filter (fun z => key z == c) = _
    by_cases hx : (key x == c) = true
    · rw [if_pos hx, List.filter_cons, if_pos hx]
    · rw [if_neg hx, List.filter_cons, if_neg hx]
  | cons y ys ih =>
    unfold insertK
    by_cases hle : le (key x) (key y) = true
    · rw [if_pos hle]
      by_cases hx : (key x == c) = true
      · rw [if_pos hx, List.filter_cons, if_pos hx]
      · rw [if_neg hx, List.filter_cons, if_neg hx]
    · rw [if_neg hle]
      rw [List.filter_cons, List.filter_cons]
      by_cases hy : (key y == c) = true
      · have hyc : key y = c := eq_of_beq hy
        by_cases hx : (key x == c) = true
        · have hxc : key x = c := eq_of_beq hx
          exact absurd (hxc ▸ hyc ▸ hrefl) hle
        · rw [if_pos hy, if_pos hy, if_neg hx, ih, if_neg hx]
      · rw [if_neg hy, if_neg hy, ih]

/-- Stability of `sortBy`: the subsequence at any fixed key value is
untouched. -/
theorem filter_sortBy {α K : Type} [BEq K] [LawfulBEq K] (key : α → K)
    (le : K → K → Bool) (c : K) (hrefl : le c c = true) :
    ∀ l : List α,
      (sortBy key le l).filter (fun z => key z == c) =
        l.filter (fun z => key z == c) := by
  intro l
  induction l with
  | nil => rfl
  | cons x xs ih =>
    show ((insertK key le x (sortBy key le xs)).filter _) = _
    rw [filter_insertK key le c hrefl, ih, List.filter_cons]

/-- `natLe` is reflexive, total and transitive. -/
theorem natLe_props :
    (∀ a : Nat, natLe a a = true) ∧
    (∀ a b : Nat, natLe a b = true ∨ natLe b a = true) ∧
    (∀ a b c : Nat, natLe a b = true → natLe b c = true →
      natLe a c = true) := by
  refine ⟨fun a => by simp [natLe], fun a b => ?_, fun a b c h1 h2 => ?_⟩
  · rcases Nat.le_total a b with h | h
    · exact Or.inl (by simp [natLe, h])
    · exact Or.inr (by simp [natLe, h])
  · simp only [natLe, decide_eq_true_eq] at h1 h2 ⊢
    exact Nat.le_trans h1 h2

/-- `strLe a b` means `b`'s characters are not lexicographically below
`a`'s. -/
theorem strLe_iff (a b : String) : strLe a b = true ↔ ¬ b.data < a.data := by
  simp [strLe]

/-- `strLe` is reflexive, total and transitive. -/
theorem strLe_props :
    (∀ a : String, strLe a a = true) ∧
    (∀ a b : String, strLe a b = true ∨ strLe b a = true) ∧
    (∀ a b c : String, strLe a b = true → strLe b c = true →
      strLe a c = true) := by
  refine ⟨fun a => ?_, fun a b => ?_, fun a b c h1 h2 => ?_⟩
  · exact (strLe_iff a a).2 (lt_irrefl _)
  · by_cases h : strLe a b = true
    · exact Or.inl h
    · refine Or.inr ((strLe_iff b a).2 ?_)
      rw [strLe_iff] at h
      push_neg at h
      exact fun hc => lt_asymm h hc
  · rw [strLe_iff] at h1 h2 ⊢
    intro hca
    rcases lt_trichotomy a.data b.data with h | h | h
    · exact h2 (lt_trans hca h)
    · rw [h] at hca
      exact h2 hca
    · exact h1 h

/-- C6. Filter parsing is total and forgiving: a node id is selected iff
some comma-separated token `parseInt`s to it and it is nonzero (so
unparsable tokens and the numeral 0 are silently dropped and node id 0
can never be selected), and a locality pattern whose compilation fails
yields an absent filter. -/
theorem filter_parsing_drops_bad_tokens :
    (∀ input n, n ∈ getNodeIDs input ↔
      ∃ tok, tok ∈ splitComma input ∧ parseIntJS tok = some n ∧ n ≠ 0) ∧
    (∀ input, (0 : Int) ∉ getNodeIDs input) ∧
    (∀ compile q, compile q = none → parseLocality compile q = none) := by
  have hmem : ∀ input n, n ∈ getNodeIDs input ↔
      ∃ tok, tok ∈ splitComma input ∧ parseIntJS tok = some n ∧ n ≠ 0 := by
    intro input n
    unfold getNodeIDs
    by_cases hin : input = ""
    · subst hin
      have hsplit : splitComma "" = [""] := rfl
      have hparse : parseIntJS "" = none := rfl
      rw [if_pos rfl, hsplit]
      constructor
      · intro h; exact absurd h (Finset.not_mem_empty n)
      · rintro ⟨tok, htok, hp, _⟩
        rw [List.mem_singleton] at htok
        rw [htok, hparse] at hp
        exact absurd hp (by simp)
    · rw [if_neg hin, mem_foldl_getNodeIDsStep]
      simp
  refine ⟨hmem, ?_, ?_⟩
  · intro input h
    rcases (hmem input 0).1 h with ⟨tok, _, _, h0⟩
    exact h0 rfl
  · intro compile q hc
    unfold parseLocality
    by_cases hq : q = "" <;> simp [hq, hc]

/-- C6, witness: a parsable token is selected, and a failing compilation
yields an absent locality filter, at concrete inputs. -/
theorem filter_parsing_drops_bad_tokens_witness :
    ((5 : Int) ∈ getNodeIDs "5,x,0") ∧
    parseLocality (fun _ => none) "[" = none :=
  ⟨(filter_parsing_drops_bad_tokens.1 "5,x,0" 5).mpr
      ⟨"5", by decide, by decide, by decide⟩,
   filter_parsing_drops_bad_tokens.2.2 (fun _ => none) "[" rfl⟩

/-- A successful locality-keep test means a status exists and the
pattern does not match. -/
theorem localityKeep_some_true (snap : Snapshot) (test : String → Bool)
    (i : Nat) :
    ((nodeStatusByID snap i).map
        (fun st => !test (localityToString st.locality)) = some true) ↔
      ∃ st, nodeStatusByID snap i = some st ∧
        test (localityToString st.locality) = false := by
  cases hst : nodeStatusByID snap i with
  | none => simp
  | some st => simp [Bool.not_eq_true']

/-- C7. With a locality pattern present, both the healthy and the stale
chain keep exactly the ids that survive the node-id step AND whose
locality does NOT match the pattern: matching nodes are removed from
both sets (the pattern is an exclusion filter). -/
theorem localityPattern_excludes_matching_nodes (snap : Snapshot)
    (requested : Finset Int) (test : String → Bool) :
    (∀ l, healthyIDs snap requested (some test) = some l →
      ∀ i, i ∈ l ↔ i ∈ applyRequested requested (healthyBase snap) ∧
        ∃ st, nodeStatusByID snap i = some st ∧
          test (localityToString st.locality) = false) ∧
    (∀ l, staleIDs snap requested (some test) = some l →
      ∀ i, i ∈ l ↔ i ∈ applyRequested requested (staleBase snap) ∧
        ∃ st, nodeStatusByID snap i = some st ∧
          test (localityToString st.locality) = false) := by
  constructor
  · intro l hl i
    rw [filterOpt_some_mem _ _ l hl i, localityKeep_some_true]
  · intro l hl i
    rw [filterOpt_some_mem _ _ l hl i, localityKeep_some_true]

/-- C7, witness at a concrete input: with a never-matching pattern both
healthy nodes survive. -/
theorem localityPattern_excludes_matching_nodes_witness :
    (2 : Nat) ∈ [2, 1] ↔
      ((2 : Nat) ∈ applyRequested ∅ (healthyBase snapC3) ∧
        ∃ st, nodeStatusByID snapC3 2 = some st ∧
          (fun _ => false) (localityToString st.locality) = false) :=
  (localityPattern_excludes_matching_nodes snapC3 ∅ (fun _ => false)).1
    [2, 1] rfl 2

/-- The requested-ids step only removes ids. -/
theorem applyRequested_subset (requested : Finset Int) (l : List Nat)
    (i : Nat) (h : i ∈ applyRequested requested l) : i ∈ l := by
  unfold applyRequested at h
  split at h
  · exact (List.mem_filter.1 h).1
  · exact h

/-- The locality step only removes ids. -/
theorem applyLocality_subset (snap : Snapshot)
    (loc : Option (String → Bool)) (l r : List Nat) (i : Nat)
    (hr : applyLocality snap loc l = some r) (hi : i ∈ r) : i ∈ l := by
  unfold applyLocality at hr
  cases loc with
  | none =>
    injection hr with hr
    subst hr
    exact hi
  | some test => exact ((filterOpt_some_mem _ _ _ hr i).1 hi).1

/-- Ids surviving the healthy chain are healthy-base ids. -/
theorem healthyIDs_mem_base (snap : Snapshot) (requested : Finset Int)
    (loc : Option (String → Bool)) (l : List Nat) (i : Nat)
    (hl : healthyIDs snap requested loc = some l) (hi : i ∈ l) :
    i ∈ healthyBase snap :=
  applyRequested_subset requested _ i
    (applyLocality_subset snap loc _ l i hl hi)

/-- Ids surviving the stale chain are stale-base ids. -/
theorem staleIDs_mem_base (snap : Snapshot) (requested : Finset Int)
    (loc : Option (String → Bool)) (l : List Nat) (i : Nat)
    (hl : staleIDs snap requested loc = some l) (hi : i ∈ l) :
    i ∈ staleBase snap :=
  applyRequested_subset requested _ i
    (applyLocality_subset snap loc _ l i hl hi)

/-- Membership in the `unionList` fold. -/
theorem mem_unionList_aux :
    ∀ (l acc : List Nat) (x : Nat),
      x ∈ l.foldl (fun acc y => if y ∈ acc then acc else acc ++ [y]) acc ↔
        x ∈ acc ∨ x ∈ l := by
  intro l
  induction l with
  | nil => intro acc x; simp
  | cons y ys ih =>
    intro acc x
    simp only [List.foldl_cons]
    rw [ih]
    by_cases hy : y ∈ acc
    · rw [if_pos hy]
      constructor
      · rintro (h | h)
        · exact Or.inl h
        · exact Or.inr (List.mem_cons_of_mem _ h)
      · rintro (h | h)
        · exact Or.inl h
        · rcases List.mem_cons.1 h with rfl | h'
          · exact Or.inl hy
          · exact Or.inr h'
    · rw [if_neg hy]
      constructor
      · rintro (h | h)
        · rcases List.mem_append.1 h with h' | h'
          · exact Or.inl h'
          · rw [List.mem_singleton] at h'
            subst h'
            exact Or.inr (List.mem_cons_self x ys)
        · exact Or.inr (List.mem_cons_of_mem _ h)
      · rintro (h | h)
        · exact Or.inl (List.mem_append.2 (Or.inl h))
        · rcases List.mem_cons.1 h with rfl | h'
          · exact Or.inl (List.mem_append.2 (Or.inr (by simp)))
          · exact Or.inr h'

/-- Membership in `unionList`. -/
theorem mem_unionList (a b : List Nat) (x : Nat) :
    x ∈ unionList a b ↔ x ∈ a ∨ x ∈ b := by
  unfold unionList
  rw [mem_unionList_aux]
  simp

/-- A resolved identity carries the node id it was looked up by. -/
theorem identityByID_nodeID (sts : List NodeStatus) (i : Nat)
    (ident : Identity) (h : identityByID sts i = some ident) :
    ident.nodeID = i := by
  unfold identityByID at h
  cases hf : sts.reverse.find? (fun st => st.node_id == i) with
  | none => rw [hf] at h; exact absurd h (by simp)
  | some st =>
    rw [hf] at h
    injection h with h
    subst h
    exact eq_of_beq (by simpa using List.find?_some hf)

/-- Filtering by two mutually exclusive predicates splits the length of
the filter by their disjunction. -/
theorem length_filter_add {α : Type} (p q : α → Bool)
    (h : ∀ x, ¬(p x = true ∧ q x = true)) :
    ∀ l : List α,
      (l.filter p).length + (l.filter q).length =
        (l.filter (fun x => p x || q x)).length := by
  intro l
  induction l with
  | nil => rfl
  | cons x xs ih =>
    rw [List.filter_cons, List.filter_cons, List.filter_cons]
    by_cases hp : p x = true
    · have hq : q x = false := by
        cases hqx : q x
        · rfl
        · exact absurd ⟨hp, hqx⟩ (h x)
      rw [if_pos hp, if_neg (by simp [hq]), if_pos (by simp [hp])]
      simp only [List.length_cons]
      have := ih
      omega
    · have hp' : p x = false := by
        cases hpx : p x
        · rfl
        · exact absurd hpx hp
      by_cases hq : q x = true
      · rw [if_neg hp, if_pos hq, if_pos (by simp [hq])]
        simp only [List.length_cons]
        have := ih
        omega
      · have hq' : q x = false := by
          cases hqx : q x
          · rfl
          · exact absurd hqx hq
        rw [if_neg hp, if_neg hq, if_neg (by simp [hp', hq'])]
        exact ih

/-- Identities coming out of `displayIdentities` resolve from ids in the
union of the two filtered chains. -/
theorem displayIdentities_source (snap : Snapshot)
    (requested : Finset Int) (loc : Option (String → Bool))
    (l : List Identity) (hl : displayIdentities snap requested loc = some l)
    (ident : Identity) (hid : ident ∈ l) :
    ∃ h s i, healthyIDs snap requested loc = some h ∧
      staleIDs snap requested loc = some s ∧
      (i ∈ h ∨ i ∈ s) ∧ identityByID snap.nodeStatuses i = some ident := by
  unfold displayIdentities at hl
  cases hh : healthyIDs snap requested loc with
  | none => rw [hh] at hl; exact absurd hl (by simp)
  | some h =>
    cases hs : staleIDs snap requested loc with
    | none => rw [hh, hs] at hl; exact absurd hl (by simp)
    | some s =>
      rw [hh, hs] at hl
      have hl' : Option.map
          (fun idents => sortBy (fun ident => ident.locality) strLe
            (sortBy (fun ident => ident.nodeID) natLe idents))
          (mapOpt (identityByID snap.nodeStatuses) (unionList h s)) =
            some l := hl
      cases hm : mapOpt (identityByID snap.nodeStatuses) (unionList h s) with
      | none => rw [hm] at hl'; exact absurd hl' (by simp)
      | some idents =>
        rw [hm] at hl'
        injection hl' with hl'
        subst hl'
        rw [mem_sortBy, mem_sortBy] at hid
        rcases mapOpt_some_mem _ _ _ hm ident hid with ⟨i, hiu, hident⟩
        exact ⟨h, s, i, rfl, rfl, (mem_unionList h s i).1 hiu, hident⟩

/-- C8. Healthy and stale base sets are exactly the HEALTHY and SUSPECT
nodes, they are disjoint, with the empty filter the chains pass through
unchanged and their sizes add up to the number of HEALTHY-or-SUSPECT
nodes, and every identity displayed (resp. listed stale) belongs to a
node whose liveness is HEALTHY or SUSPECT (resp. SUSPECT). -/
theorem healthy_stale_partition_spec :
    (∀ (snap : Snapshot) (i : Nat),
      i ∈ healthyBase snap ↔
        i ∈ snap.nodeIDs ∧ snap.liveness i = LivenessStatus.HEALTHY) ∧
    (∀ (snap : Snapshot) (i : Nat),
      i ∈ staleBase snap ↔
        i ∈ snap.nodeIDs ∧ snap.liveness i = LivenessStatus.SUSPECT) ∧
    (∀ (snap : Snapshot) (i : Nat),
      ¬(i ∈ healthyBase snap ∧ i ∈ staleBase snap)) ∧
    (∀ snap : Snapshot,
      healthyIDs snap ∅ none = some (healthyBase snap) ∧
      staleIDs snap ∅ none = some (staleBase snap)) ∧
    (∀ snap : Snapshot,
      (healthyBase snap).length + (staleBase snap).length =
        (snap.nodeIDs.filter (fun i =>
          (snap.liveness i == LivenessStatus.HEALTHY) ||
            (snap.liveness i == LivenessStatus.SUSPECT))).length) ∧
    (∀ (snap : Snapshot) (requested : Finset Int)
        (loc : Option (String → Bool)) (l : List Identity),
      displayIdentities snap requested loc = some l →
      ∀ ident, ident ∈ l →
        snap.liveness ident.nodeID = LivenessStatus.HEALTHY ∨
          snap.liveness ident.nodeID = LivenessStatus.SUSPECT) ∧
    (∀ (snap : Snapshot) (requested : Finset Int)
        (loc : Option (String → Bool)) (l : List Identity),
      staleIdentities snap requested loc = some l →
      ∀ ident, ident ∈ l →
        snap.liveness ident.nodeID = LivenessStatus.SUSPECT) := by
  have hmemH : ∀ (snap : Snapshot) (i : Nat),
      i ∈ healthyBase snap ↔
        i ∈ snap.nodeIDs ∧ snap.liveness i = LivenessStatus.HEALTHY := by
    intro snap i
    unfold healthyBase
    rw [List.mem_filter]
    simp
  have hmemS : ∀ (snap : Snapshot) (i : Nat),
      i ∈ staleBase snap ↔
        i ∈ snap.nodeIDs ∧ snap.liveness i = LivenessStatus.SUSPECT := by
    intro snap i
    unfold staleBase
    rw [List.mem_filter]
    simp
  refine ⟨hmemH, hmemS, ?_, ?_, ?_, ?_, ?_⟩
  · rintro snap i ⟨hh, hs⟩
    rw [hmemH] at hh
    rw [hmemS] at hs
    rw [hh.2] at hs
    exact absurd hs.2 (by simp)
  · intro snap
    constructor <;> rfl
  · intro snap
    exact length_filter_add _ _
      (by
        intro x
        rintro ⟨hp, hq⟩
        rw [beq_iff_eq] at hp hq
        rw [hp] at hq
        exact absurd hq (by simp))
      snap.nodeIDs
  · intro snap requested loc l hl ident hid
    rcases displayIdentities_source snap requested loc l hl ident hid with
      ⟨h, s, i, hh, hs, hiu | hiu, hident⟩
    · left
      rw [identityByID_nodeID _ _ _ hident]
      exact ((hmemH snap i).1 (healthyIDs_mem_base snap requested loc h i hh hiu)).2
    · right
      rw [identityByID_nodeID _ _ _ hident]
      exact ((hmemS snap i).1 (staleIDs_mem_base snap requested loc s i hs hiu)).2
  · intro snap requested loc l hl ident hid
    unfold staleIdentities at hl
    cases hs : staleIDs snap requested loc with
    | none => rw [hs] at hl; exact absurd hl (by simp)
    | some s =>
      rw [hs] at hl
      have hl' : Option.map
          (fun idents => sortBy (fun ident => ident.locality) strLe
            (sortBy (fun ident => ident.nodeID) natLe idents))
          (mapOpt (identityByID snap.nodeStatuses) s) = some l := hl
      cases hm : mapOpt (identityByID snap.nodeStatuses) s with
      | none => rw [hm] at hl'; exact absurd hl' (by simp)
      | some idents =>
        rw [hm] at hl'
        injection hl' with hl'
        subst hl'
        rw [mem_sortBy, mem_sortBy] at hid
        rcases mapOpt_some_mem _ _ _ hm ident hid with ⟨i, his, hident⟩
        rw [identityByID_nodeID _ _ _ hident]
        exact ((hmemS snap i).1 (staleIDs_mem_base snap requested loc s i hs his)).2

/-- C8, witness: the displayed identities of a concrete snapshot are all
HEALTHY or SUSPECT there. -/
theorem healthy_stale_partition_spec_witness :
    snapC3.liveness (Identity.mk 1 "a1" "" 0).nodeID =
        LivenessStatus.HEALTHY ∨
      snapC3.liveness (Identity.mk 1 "a1" "" 0).nodeID =
        LivenessStatus.SUSPECT :=
  healthy_stale_partition_spec.2.2.2.2.2.1 snapC3 ∅ none
    [⟨1, "a1", "", 0⟩, ⟨2, "a2", "", 0⟩] rfl ⟨1, "a1", "", 0⟩ (by decide)

/-- A `mapOpt` that succeeds while its function always fails has emptied
input and output. -/
theorem mapOpt_some_of_none {α β : Type} (f : α → Option β)
    (l : List α) (r : List β) (hr : mapOpt f l = some r)
    (hf : ∀ x, f x = none) : r = [] := by
  cases l with
  | nil =>
    unfold mapOpt at hr
    injection hr with hr
    exact hr.symm
  | cons x xs =>
    unfold mapOpt at hr
    rw [hf x] at hr
    exact absurd hr (by simp)

/-- C3, amended. The four stable sorts run inside the per-healthy-node
group: every entry of the group for node `a` has `from`-node `a` (so the
trailing `from.nodeID`/`from.locality` passes are no-ops), the group is
sorted by `to.locality` with ties left in `to.nodeID` order, and the full
no-connection list is just the concatenation of the groups in
`healthyList` order — not a globally sorted list. -/
theorem noConnections_groupwise_sorted (snap : Snapshot)
    (healthyList : List Nat) :
    (∀ a g, noConnGroup snap healthyList a = some g →
      (∀ nc, nc ∈ g → nc.from.nodeID = a) ∧
      List.Pairwise (fun x y => strLe x.to.locality y.to.locality = true) g ∧
      (∀ c, List.Pairwise (fun x y => natLe x.to.nodeID y.to.nodeID = true)
        (g.filter (fun nc => nc.to.locality == c)))) ∧
    (∀ groups,
      mapOpt (noConnGroup snap healthyList) healthyList = some groups →
      noConnections snap healthyList = some groups.flatten) := by
  constructor
  · intro a g hg
    unfold noConnGroup at hg
    cases hst : nodeStatusByID snap a with
    | none => rw [hst] at hg; exact absurd hg (by simp)
    | some st =>
      rw [hst] at hg
      have hg' : (mapOpt
          (fun b =>
            match identityByID snap.nodeStatuses a,
                identityByID snap.nodeStatuses b with
            | some f, some t => some (NoConnection.mk f t)
            | _, _ => none)
          ((st.latencies.map Prod.fst).filter
            (fun b => !healthyList.contains b))).map
          (fun entries =>
            sortBy (fun nc => nc.from.locality) strLe
              (sortBy (fun nc => nc.from.nodeID) natLe
                (sortBy (fun nc => nc.to.locality) strLe
                  (sortBy (fun nc => nc.to.nodeID) natLe entries)))) =
            some g := hg
      cases hm : mapOpt
          (fun b =>
            match identityByID snap.nodeStatuses a,
                identityByID snap.nodeStatuses b with
            | some f, some t => some (NoConnection.mk f t)
            | _, _ => none)
          ((st.latencies.map Prod.fst).filter
            (fun b => !healthyList.contains b)) with
      | none => rw [hm] at hg'; exact absurd hg' (by simp)
      | some entries =>
        rw [hm] at hg'
        injection hg' with hg'
        have hg2 : sortBy (fun nc => nc.from.locality) strLe
            (sortBy (fun nc => nc.from.nodeID) natLe
              (sortBy (fun nc => nc.to.locality) strLe
                (sortBy (fun nc => nc.to.nodeID) natLe entries))) = g := hg'
        subst hg2
        cases hfa : identityByID snap.nodeStatuses a with
        | none =>
          have hent : entries = [] :=
            mapOpt_some_of_none _ _ _ hm (fun b => by rw [hfa])
          subst hent
          refine ⟨?_, ?_, ?_⟩
          · intro nc hnc
            simp [sortBy] at hnc
          · simp [sortBy]
          · intro c
            simp [sortBy]
        | some f =>
          have hfrom : ∀ nc ∈ entries, nc.«from» = f := by
            intro nc hnc
            rcases mapOpt_some_mem _ _ _ hm nc hnc with ⟨b, _, hmk⟩
            rw [hfa] at hmk
            cases hfb : identityByID snap.nodeStatuses b with
            | none => rw [hfb] at hmk; exact absurd hmk (by simp)
            | some t =>
              rw [hfb] at hmk
              injection hmk with hmk
              rw [← hmk]
          have hfid : f.nodeID = a := identityByID_nodeID _ _ _ hfa
          have hfrom2 : ∀ nc ∈
              sortBy (fun nc => nc.to.locality) strLe
                (sortBy (fun nc => nc.to.nodeID) natLe entries),
              nc.«from» = f := by
            intro nc hnc
            rw [mem_sortBy, mem_sortBy] at hnc
            exact hfrom nc hnc
          have hn1 : sortBy (fun nc => nc.from.nodeID) natLe
              (sortBy (fun nc => nc.to.locality) strLe
                (sortBy (fun nc => nc.to.nodeID) natLe entries)) =
              sortBy (fun nc => nc.to.locality) strLe
                (sortBy (fun nc => nc.to.nodeID) natLe entries) :=
            sortBy_const_key _ natLe a (natLe_props.1 a) _
              (fun nc hnc => by rw [hfrom2 nc hnc, hfid])
          have hn2 : sortBy (fun nc => nc.from.locality) strLe
              (sortBy (fun nc => nc.to.locality) strLe
                (sortBy (fun nc => nc.to.nodeID) natLe entries)) =
              sortBy (fun nc => nc.to.locality) strLe
                (sortBy (fun nc => nc.to.nodeID) natLe entries) :=
            sortBy_const_key _ strLe f.locality (strLe_props.1 f.locality) _
              (fun nc hnc => by rw [hfrom2 nc hnc])
          rw [hn1, hn2]
          refine ⟨?_, ?_, ?_⟩
          · intro nc hnc
            rw [mem_sortBy, mem_sortBy] at hnc
            rw [hfrom nc hnc, hfid]
          · exact sortBy_sorted _ strLe strLe_props.2.1 strLe_props.2.2 _
          · intro c
            rw [filter_sortBy _ strLe c (strLe_props.1 c)]
            exact List.Pairwise.sublist (List.filter_sublist _)
              (sortBy_sorted _ natLe natLe_props.2.1 natLe_props.2.2 entries)
  · intro groups hgroups
    unfold noConnections
    rw [hgroups]
    rfl

/-- C3, witness for the amended theorem at a concrete input. -/
theorem noConnections_groupwise_sorted_witness :
    (∀ nc, nc ∈ [NoConnection.mk ⟨2, "a2", "", 0⟩ ⟨3, "a3", "", 0⟩] →
      nc.from.nodeID = 2) ∧
    noConnections snapC3 [2, 1] =
      some ([[NoConnection.mk ⟨2, "a2", "", 0⟩ ⟨3, "a3", "", 0⟩],
             [NoConnection.mk ⟨1, "a1", "", 0⟩ ⟨3, "a3", "", 0⟩]] :
        List (List NoConnection)).flatten :=
  ⟨((noConnections_groupwise_sorted snapC3 [2, 1]).1 2
      [NoConnection.mk ⟨2, "a2", "", 0⟩ ⟨3, "a3", "", 0⟩] rfl).1,
   (noConnections_groupwise_sorted snapC3 [2, 1]).2
      [[NoConnection.mk ⟨2, "a2", "", 0⟩ ⟨3, "a3", "", 0⟩],
       [NoConnection.mk ⟨1, "a1", "", 0⟩ ⟨3, "a3", "", 0⟩]] rfl⟩

/-- Counting through a successful `mapOpt` with a pointwise-compatible
predicate pair. -/
theorem countP_mapOpt {α β : Type} (f : α → Option β) (p : β → Bool)
    (q : α → Bool) (hpq : ∀ x y, f x = some y → p y = q x) :
    ∀ (l : List α) (r : List β), mapOpt f l = some r →
      r.countP p = l.countP q := by
  intro l
  induction l with
  | nil =>
    intro r hr
    unfold mapOpt at hr
    injection hr with hr
    subst hr
    rfl
  | cons x xs ih =>
    intro r hr
    unfold mapOpt at hr
    cases hfx : f x with
    | none => rw [hfx] at hr; exact absurd hr (by simp)
    | some y =>
      rw [hfx] at hr
      cases hrec : mapOpt f xs with
      | none => rw [hrec] at hr; exact absurd hr (by simp)
      | some rest =>
        rw [hrec] at hr
        injection hr with hr
        subst hr
        rw [List.countP_cons, List.countP_cons, ih rest hrec, hpq x y hfx]

/-- The (A,B)-count of the group a healthy node `a` emits: one when
`a = A` and `a` reports a missing connection toward `B`, zero
otherwise. -/
theorem noConnGroup_countP (snap : Snapshot) (healthyList : List Nat)
    (a A B : Nat) (g : List NoConnection)
    (hg : noConnGroup snap healthyList a = some g)
    (hkeys : ∀ st, nodeStatusByID snap a = some st →
      (st.latencies.map Prod.fst).Nodup) :
    g.countP (fun nc => nc.from.nodeID == A && nc.to.nodeID == B) =
      if a = A ∧ peerReported snap healthyList a B = true then 1
      else 0 := by
  unfold noConnGroup at hg
  cases hst : nodeStatusByID snap a with
  | none => rw [hst] at hg; exact absurd hg (by simp)
  | some st =>
    rw [hst] at hg
    have hg' : (mapOpt
        (fun b =>
          match identityByID snap.nodeStatuses a,
              identityByID snap.nodeStatuses b with
          | some f, some t => some (NoConnection.mk f t)
          | _, _ => none)
        ((st.latencies.map Prod.fst).filter
          (fun b => !healthyList.contains b))).map
        (fun entries =>
          sortBy (fun nc => nc.from.locality) strLe
            (sortBy (fun nc => nc.from.nodeID) natLe
              (sortBy (fun nc => nc.to.locality) strLe
                (sortBy (fun nc => nc.to.nodeID) natLe entries)))) =
          some g := hg
    cases hm : mapOpt
        (fun b =>
          match identityByID snap.nodeStatuses a,
              identityByID snap.nodeStatuses b with
          | some f, some t => some (NoConnection.mk f t)
          | _, _ => none)
        ((st.latencies.map Prod.fst).filter
          (fun b => !healthyList.contains b)) with
    | none => rw [hm] at hg'; exact absurd hg' (by simp)
    | some entries =>
      rw [hm] at hg'
      injection hg' with hg'
      have hg2 : sortBy (fun nc => nc.from.locality) strLe
          (sortBy (fun nc => nc.from.nodeID) natLe
            (sortBy (fun nc => nc.to.locality) strLe
              (sortBy (fun nc => nc.to.nodeID) natLe entries))) = g := hg'
      subst hg2
      rw [List.Perm.countP_eq _ (sortBy_perm _ strLe _),
        List.Perm.countP_eq _ (sortBy_perm _ natLe _),
        List.Perm.countP_eq _ (sortBy_perm _ strLe _),
        List.Perm.countP_eq _ (sortBy_perm _ natLe _)]
      have hq : entries.countP
          (fun nc => nc.from.nodeID == A && nc.to.nodeID == B) =
          ((st.latencies.map Prod.fst).filter
            (fun b => !healthyList.contains b)).countP
            (fun b => (a == A) && (b == B)) := by
        refine countP_mapOpt _ _ _ ?_ _ _ hm
        intro b nc hmk
        cases hfa : identityByID snap.nodeStatuses a with
        | none => rw [hfa] at hmk; exact absurd hmk (by simp)
        | some f =>
          rw [hfa] at hmk
          cases hfb : identityByID snap.nodeStatuses b with
          | none => rw [hfb] at hmk; exact absurd hmk (by simp)
          | some t =>
            rw [hfb] at hmk
            injection hmk with hmk
            rw [← hmk]
            show (f.nodeID == A && t.nodeID == B) = _
            rw [identityByID_nodeID _ _ _ hfa, identityByID_nodeID _ _ _ hfb]
      rw [hq]
      by_cases haA : a = A
      · subst haA
        have hfun : (fun b => (a == a : Bool) && (b == B)) =
            (fun b => b == B) := by
          funext b
          simp
        rw [hfun]
        have hnodup : ((st.latencies.map Prod.fst).filter
            (fun b => !healthyList.contains b)).Nodup :=
          List.Nodup.filter _ (hkeys st hst)
        by_cases hB : B ∈ (st.latencies.map Prod.fst).filter
            (fun b => !healthyList.contains b)
        · have hpr : peerReported snap healthyList a B = true := by
            rcases List.mem_filter.1 hB with ⟨hBk, hBh⟩
            unfold peerReported
            rw [hst, Bool.and_eq_true]
            exact ⟨by simpa using hBk, hBh⟩
          rw [if_pos ⟨rfl, hpr⟩]
          exact List.count_eq_one_of_mem hnodup hB
        · have hpr : ¬(a = a ∧ peerReported snap healthyList a B = true) := by
            rintro ⟨-, hpr⟩
            unfold peerReported at hpr
            rw [hst, Bool.and_eq_true] at hpr
            exact hB (List.mem_filter.2 ⟨by simpa using hpr.1, hpr.2⟩)
          rw [if_neg hpr]
          exact List.count_eq_zero_of_not_mem hB
      · rw [if_neg (fun h => haA h.1)]
        refine List.countP_eq_zero.2 ?_
        intro b _
        simp [haA]

/-- Summing the per-group counts over the healthy fold. -/
theorem noConnections_count_aux (snap : Snapshot)
    (healthyList : List Nat) (A B : Nat)
    (hkeys : ∀ st ∈ snap.nodeStatuses, (st.latencies.map Prod.fst).Nodup) :
    ∀ (hl : List Nat) (groups : List (List NoConnection)),
      hl.Nodup →
      mapOpt (noConnGroup snap healthyList) hl = some groups →
      (groups.flatten).countP
          (fun nc => nc.from.nodeID == A && nc.to.nodeID == B) =
        if A ∈ hl ∧ peerReported snap healthyList A B = true then 1
        else 0 := by
  intro hl
  induction hl with
  | nil =>
    intro groups _ hg
    unfold mapOpt at hg
    injection hg with hg
    subst hg
    simp
  | cons a as ih =>
    intro groups hnd hg
    unfold mapOpt at hg
    cases hga : noConnGroup snap healthyList a with
    | none => rw [hga] at hg; exact absurd hg (by simp)
    | some g =>
      rw [hga] at hg
      cases hrec : mapOpt (noConnGroup snap healthyList) as with
      | none => rw [hrec] at hg; exact absurd hg (by simp)
      | some gs =>
        rw [hrec] at hg
        injection hg with hg
        subst hg
        rw [List.flatten_cons, List.countP_append]
        have hkey_a : ∀ st, nodeStatusByID snap a = some st →
            (st.latencies.map Prod.fst).Nodup := by
          intro st hsta
          apply hkeys
          unfold nodeStatusByID at hsta
          exact List.mem_reverse.1 (List.mem_of_find?_eq_some hsta)
        rw [noConnGroup_countP snap healthyList a A B g hga hkey_a,
          ih gs (List.Nodup.of_cons hnd) hrec]
        by_cases haA : a = A
        · subst haA
          have hnotin : a ∉ as := (List.nodup_cons.1 hnd).1
          by_cases hpr : peerReported snap healthyList a B = true
          · rw [if_pos ⟨rfl, hpr⟩, if_neg (fun h => hnotin h.1),
              if_pos ⟨List.mem_cons_self a as, hpr⟩]
          · rw [if_neg (fun h => hpr h.2), if_neg (fun h => hpr h.2),
              if_neg (fun h => hpr h.2)]
        · rw [if_neg (fun h => haA h.1), Nat.zero_add]
          by_cases h2 : A ∈ as ∧ peerReported snap healthyList A B = true
          · rw [if_pos h2, if_pos ⟨List.mem_cons_of_mem a h2.1, h2.2⟩]
          · rw [if_neg h2, if_neg (fun hc => h2
              ⟨(List.mem_cons.1 hc.1).resolve_left
                (fun he => haA he.symm), hc.2⟩)]

/-- C9. For every healthy node `A` and peer key `B` of `A`'s latency map
outside the healthy set, the no-connection list holds exactly one
`{from: A, to: B}` entry, and no `{from: A, to: B}` entry exists in any
other case — in particular a reverse `{from: B, to: A}` entry appears
only when `B` is itself healthy and independently reports `A`. -/
theorem noConnections_exactly_one_per_missing_peer (snap : Snapshot)
    (healthyList : List Nat) (res : List NoConnection) (A B : Nat)
    (hnd : healthyList.Nodup)
    (hkeys : ∀ st ∈ snap.nodeStatuses, (st.latencies.map Prod.fst).Nodup)
    (hres : noConnections snap healthyList = some res) :
    res.countP (fun nc => nc.from.nodeID == A && nc.to.nodeID == B) =
      if missingConnSpec snap healthyList A B = true then 1 else 0 := by
  unfold noConnections at hres
  cases hm : mapOpt (noConnGroup snap healthyList) healthyList with
  | none => rw [hm] at hres; exact absurd hres (by simp)
  | some groups =>
    rw [hm] at hres
    injection hres with hres
    subst hres
    rw [noConnections_count_aux snap healthyList A B hkeys healthyList
      groups hnd hm]
    unfold missingConnSpec
    have hcond : ((healthyList.contains A &&
          peerReported snap healthyList A B) = true) ↔
        (A ∈ healthyList ∧ peerReported snap healthyList A B = true) := by
      rw [Bool.and_eq_true]
      constructor
      · rintro ⟨h1, h2⟩
        exact ⟨by simpa using h1, h2⟩
      · rintro ⟨h1, h2⟩
        exact ⟨by simpa using h1, h2⟩
    by_cases hc : A ∈ healthyList ∧
        peerReported snap healthyList A B = true
    · rw [if_pos hc, if_pos (hcond.2 hc)]
    · rw [if_neg hc, if_neg (fun h => hc (hcond.1 h))]

/-- C9, witness at a concrete input: node 2 reports dead node 3 exactly
once. -/
theorem noConnections_exactly_one_per_missing_peer_witness :
    listC3.countP (fun nc => nc.from.nodeID == 2 && nc.to.nodeID == 3) =
      if missingConnSpec snapC3 [2, 1] 2 3 = true then 1 else 0 :=
  noConnections_exactly_one_per_missing_peer snapC3 [2, 1] listC3 2 3
    (by decide) (by decide) rfl

/-- The threshold chain only produces the five numeric bands. -/
theorem classifyMs_numeric (p2 p1 m2 m1 : Option ℚ) (q : ℚ) :
    classifyMs p2 p1 m2 m1 q ≠ Band.self ∧
    classifyMs p2 p1 m2 m1 q ≠ Band.noConnection := by
  unfold classifyMs
  cases h2 : jsGtB q p2 <;> cases h1 : jsGtB q p1 <;>
    cases hm2 : jsLtB q m2 <;> cases hm1 : jsLtB q m1 <;> simp

/-- Every value in a successful statistics sample is strictly
positive. -/
theorem latencySample_pos (snap : Snapshot) (healthyList : List Nat)
    (ls : List ℚ) (hls : latencySample snap healthyList = some ls) :
    ∀ x ∈ ls, 0 < x := by
  intro x hx
  unfold latencySample at hls
  cases hm : mapOpt (perNodeSample snap healthyList) healthyList with
  | none => rw [hm] at hls; exact absurd hls (by simp)
  | some samples =>
    rw [hm] at hls
    injection hls with hls
    subst hls
    rcases List.mem_flatten.1 hx with ⟨grp, hgrp, hxg⟩
    rcases mapOpt_some_mem _ _ _ hm grp hgrp with ⟨a, _, hpa⟩
    unfold perNodeSample at hpa
    cases hst : nodeStatusByID snap a with
    | none => rw [hst] at hpa; exact absurd hpa (by simp)
    | some st =>
      rw [hst] at hpa
      have hpa1 : Option.map
          (fun ds => List.filter (fun ms => decide (0 < ms))
            (List.map NanoToMilli ds))
          (mapOpt (fun b => st.latencies.lookup b)
            (healthyList.filter (fun b => b ≠ a))) = some grp := hpa
      cases hds : mapOpt (fun b => st.latencies.lookup b)
          (healthyList.filter (fun b => b ≠ a)) with
      | none => rw [hds] at hpa1; exact absurd hpa1 (by simp)
      | some ds =>
        rw [hds] at hpa1
        injection hpa1 with hpa
        have hpa2 : (ds.map NanoToMilli).filter
            (fun ms => decide (0 < ms)) = grp := hpa
        rw [← hpa2] at hxg
        have hx0 := List.of_mem_filter hxg
        simpa using hx0

/-- C10. A latency entry between two healthy, non-stale nodes whose
millisecond value is not strictly positive never enters the statistics
sample (all sample values are strictly positive, so this value is not
among them), yet `getLatencyCell` still classifies it through the
threshold chain into one of the five numeric bands — never
`no-connection` or `self`. -/
theorem nonpositive_latency_classified_not_sampled (snap : Snapshot)
    (healthyList staleList : List Nat) (p2 p1 m2 m1 : Option ℚ)
    (a b : Nat) (st : NodeStatus) (v : Int) (ls : List ℚ)
    (hls : latencySample snap healthyList = some ls) :
    (∀ x ∈ ls, 0 < x) ∧
    (a ≠ b → ¬(a ∈ staleList ∨ b ∈ staleList) →
      nodeStatusByID snap a = some st → st.latencies.lookup b = some v →
      NanoToMilli v ≤ 0 →
      getLatencyCell snap staleList p2 p1 m2 m1 a b =
        some (classifyMs p2 p1 m2 m1 (NanoToMilli v)) ∧
      classifyMs p2 p1 m2 m1 (NanoToMilli v) ≠ Band.self ∧
      classifyMs p2 p1 m2 m1 (NanoToMilli v) ≠ Band.noConnection ∧
      NanoToMilli v ∉ ls) := by
  refine ⟨latencySample_pos snap healthyList ls hls, ?_⟩
  intro hab hstl hsome hlook hnp
  refine ⟨?_, (classifyMs_numeric p2 p1 m2 m1 _).1,
    (classifyMs_numeric p2 p1 m2 m1 _).2, ?_⟩
  · simp only [getLatencyCell, if_neg hab, if_neg hstl, hsome, hlook]
  · intro hmem
    exact absurd (latencySample_pos snap healthyList ls hls _ hmem)
      (not_lt.2 hnp)

/-- C10, witness on `snapC1`: the zero-valued entry (1,2) is classified
numerically while the (empty) sample excludes it. -/
theorem nonpositive_latency_classified_not_sampled_witness :
    getLatencyCell snapC1 [] (some 1) (some 1) (some 0) (some 0) 1 2 =
      some (classifyMs (some 1) (some 1) (some 0) (some 0)
        (NanoToMilli 0)) ∧
    NanoToMilli 0 ∉ ([] : List ℚ) := by
  have h := (nonpositive_latency_classified_not_sampled snapC1 [1, 2] []
      (some 1) (some 1) (some 0) (some 0) 1 2
      ⟨1, "a1", [], 0, [(2, 0)]⟩ 0 []
      (by simp [latencySample, perNodeSample, mapOpt, nodeStatusByID,
        snapC1, NanoToMilli])).2
    (by decide) (by decide) (by decide) (by decide)
    (by norm_num [NanoToMilli])
  exact ⟨h.1, h.2.2.2⟩

end NetworkReport
